import Mathlib

/-!
Verification of the chirpy file-backed user record store
(`database/database_user.go`).

The store keeps a single JSON document `DBUserStructure` holding a map from
integer ID to `User` record.  Every operation loads the whole document,
mutates it in memory and writes it back under one exclusive lock.  We embed
the document as an association list `List (Int × User)` whose list order
models the (arbitrary) iteration order of the Go map; `mapLookup` and
`mapInsert` model Go map indexing and assignment (assignment replaces the
first binding of the key or appends a fresh one).  File IO always succeeds in
the model, so the fallible paths that only fail on IO errors are embedded as
pure state transformers; operations that detect and report a domain error
(`GetUserByID`, `UpgradeUser`) return `Except String`.
-/

namespace Chirpy

/-- Go struct `User`: email, integer ID, password hash as a byte sequence
(each byte `< 256`), refresh token, and the premium (`is_chirpy_red`) flag. -/
structure User where
  Email : String
  ID : Int
  Password : List Nat
  RefreshToken : String
  IsChirpyRed : Bool
deriving DecidableEq, Repr

/-- The zero value `User{}` of the Go struct, returned by fallible paths and
by map indexing at an absent key. -/
def emptyUser : User :=
  { Email := "", ID := 0, Password := [], RefreshToken := "", IsChirpyRed := false }

/-- Go struct `DBUserStructure`: the whole JSON document, a map from ID to
user record, embedded as an association list in map iteration order. -/
structure DBUserStructure where
  Users : List (Int × User)
deriving DecidableEq, Repr

/-- The empty document created by `ensureUserDB` when no file exists. -/
def emptyDB : DBUserStructure := ⟨[]⟩

/-- Go map read `m[k]`: the value bound to `k`, if any. -/
def mapLookup (l : List (Int × User)) (k : Int) : Option User :=
  match l with
  | [] => none
  | (k', v) :: rest => if k' = k then some v else mapLookup rest k

/-- Go map write `m[k] = v`: replace the binding of `k`, or append a new one. -/
def mapInsert (k : Int) (v : User) (l : List (Int × User)) : List (Int × User) :=
  match l with
  | [] => [(k, v)]
  | (k', v') :: rest => if k' = k then (k, v) :: rest else (k', v') :: mapInsert k v rest

/-- Ordering of user records by the `ID` field, the comparison used by the
`sort.Slice` call in `GetUser`. -/
def userLE (a b : User) : Prop := a.ID ≤ b.ID

instance : DecidableRel userLE := fun a b => inferInstanceAs (Decidable (a.ID ≤ b.ID))

instance : IsTotal User userLE := ⟨fun a b => Int.le_total a.ID b.ID⟩

instance : IsTrans User userLE := ⟨fun _ _ _ h1 h2 => le_trans h1 h2⟩

/-- `DB.CreateUser`: computes `nextID = len(users) + 1`, inserts the new
record under that key with empty refresh token and false upgrade flag, and
returns the record read back from the map (`dbStructure.Users[nextID]`)
together with the written document. -/
def CreateUser (db : DBUserStructure) (body : String) (password : List Nat) :
    User × DBUserStructure :=
  let nextID : Int := (db.Users.length : Int) + 1
  let users := mapInsert nextID
    { Email := body, ID := nextID, Password := password,
      RefreshToken := "", IsChirpyRed := false } db.Users
  ((mapLookup users nextID).getD emptyUser, ⟨users⟩)

/-- `DB.GetUser` (ListAll): collects all records of the document and sorts
them ascending by the `ID` field. -/
def GetUser (db : DBUserStructure) : List User :=
  List.insertionSort userLE (db.Users.map Prod.snd)

/-- `DB.GetUserByID`: delegates to `GetUser`, rejects `ID <= 0` or
`ID > len(users)` with the error `"invalid ID"`, otherwise returns the
element at position `ID - 1` of the sorted list. -/
def GetUserByID (db : DBUserStructure) (ID : Int) : Except String User :=
  let users := GetUser db
  if (users.length : Int) < ID ∨ ID ≤ 0 then Except.error "invalid ID"
  else Except.ok (users.getD (ID - 1).toNat emptyUser)

/-- `DB.UpdateUserDB`: if `ID` is bound, overwrite that record's email and
password in place; otherwise leave the map untouched.  Always writes the
document and returns `dbStructure.Users[ID]` (the zero value when absent). -/
def UpdateUserDB (db : DBUserStructure) (ID : Int) (body : String) (password : List Nat) :
    User × DBUserStructure :=
  let users :=
    match mapLookup db.Users ID with
    | some user => mapInsert ID { user with Email := body, Password := password } db.Users
    | none => db.Users
  ((mapLookup users ID).getD emptyUser, ⟨users⟩)

/-- `DB.UpgradeUser`: if `ID` is bound, set the upgrade flag and write;
otherwise fail with `"invalid user id"` before writing, leaving the document
as it was. -/
def UpgradeUser (db : DBUserStructure) (ID : Int) : Except String Unit × DBUserStructure :=
  match mapLookup db.Users ID with
  | some user => (Except.ok (), ⟨mapInsert ID { user with IsChirpyRed := true } db.Users⟩)
  | none => (Except.error "invalid user id", db)

/-- `DB.RevokeToken`: if `ID` is bound, clear that record's refresh token;
otherwise the written document is identical to the loaded one.  No error. -/
def RevokeToken (db : DBUserStructure) (ID : Int) : DBUserStructure :=
  match mapLookup db.Users ID with
  | some user => ⟨mapInsert ID { user with RefreshToken := "" } db.Users⟩
  | none => db

/-- `DB.StoreToken`: if `ID` is bound, set that record's refresh token;
otherwise the written document is identical to the loaded one.  No error. -/
def StoreToken (db : DBUserStructure) (ID : Int) (token : String) : DBUserStructure :=
  match mapLookup db.Users ID with
  | some user => ⟨mapInsert ID { user with RefreshToken := token } db.Users⟩
  | none => db

/-- A sequence of `CreateUser` calls with no intervening operations: returns
the list of records handed back to the callers and the final document. -/
def createRun (inputs : List (String × List Nat)) (db : DBUserStructure) :
    List User × DBUserStructure :=
  match inputs with
  | [] => ([], db)
  | (e, p) :: rest =>
    let r := CreateUser db e p
    let rr := createRun rest r.2
    (r.1 :: rr.1, rr.2)

/-- The record `CreateUser` builds when `n` records already exist. -/
def newUser (n : Nat) (e : String) (p : List Nat) : User :=
  { Email := e, ID := (n : Int) + 1, Password := p,
    RefreshToken := "", IsChirpyRed := false }

/-- The bindings a run of `CreateUser` calls adds when `n` records already
exist: the i-th input becomes the record with ID `n + i + 1`, stored under
that key. -/
def mkCreated (n : Nat) (inputs : List (String × List Nat)) : List (Int × User) :=
  match inputs with
  | [] => []
  | (e, p) :: rest => ((n : Int) + 1, newUser n e p) :: mkCreated (n + 1) rest

/-! ### Sample documents used to instantiate theorems with hypotheses -/

/-- A concrete record as `CreateUser` would build it first in an empty store. -/
def sampleUser : User :=
  { Email := "a@x.com", ID := 1, Password := [1, 2], RefreshToken := "", IsChirpyRed := false }

/-- A second concrete record, with token set and flag on. -/
def sampleUser2 : User :=
  { Email := "b@x.com", ID := 2, Password := [3], RefreshToken := "tok", IsChirpyRed := true }

/-- A one-record document. -/
def sampleDB : DBUserStructure := ⟨[(1, sampleUser)]⟩

/-- A two-record document whose list order is deliberately not ID order,
modelling an arbitrary map iteration order. -/
def sampleDB2 : DBUserStructure := ⟨[(2, sampleUser2), (1, sampleUser)]⟩

/-! ### The persisted JSON document

`writeUserDB` runs `json.Marshal` on the document and writes the bytes;
`loadUserDB` reads them back and runs `json.Unmarshal`.  We embed the file
content at the level of the JSON syntax tree: struct fields are emitted in
declaration order under their wire names, a `[]byte` is emitted as its
standard base64 string, and the map keys are emitted as decimal strings
(numerically sorted; `json.Marshal` sorts map keys, and key order is
invisible to `json.Unmarshal`). -/

/-- JSON values. -/
inductive Json where
  | jnull : Json
  | jbool : Bool → Json
  | jnum : Int → Json
  | jstr : String → Json
  | jarr : List Json → Json
  | jobj : List (String × Json) → Json

/-- The standard base64 alphabet. -/
def b64Chars : List Char :=
  ['A', 'B', 'C', 'D', 'E', 'F', 'G', 'H', 'I', 'J', 'K', 'L', 'M',
   'N', 'O', 'P', 'Q', 'R', 'S', 'T', 'U', 'V', 'W', 'X', 'Y', 'Z',
   'a', 'b', 'c', 'd', 'e', 'f', 'g', 'h', 'i', 'j', 'k', 'l', 'm',
   'n', 'o', 'p', 'q', 'r', 's', 't', 'u', 'v', 'w', 'x', 'y', 'z',
   '0', '1', '2', '3', '4', '5', '6', '7', '8', '9', '+', '/']

/-- The alphabet character of a six-bit value. -/
def b64Char (i : Nat) : Char := b64Chars.getD i '='

/-- Scan of the alphabet for a character, returning its six-bit value. -/
def b64IndexAux (c : Char) : List Char → Nat → Option Nat
  | [], _ => none
  | d :: rest, n => if d = c then some n else b64IndexAux c rest (n + 1)

/-- The six-bit value of an alphabet character, `none` for any other. -/
def b64Index (c : Char) : Option Nat := b64IndexAux c b64Chars 0

/-- Standard padded base64 of a byte sequence (`encoding/base64` StdEncoding,
as `encoding/json` uses for `[]byte`). -/
def b64Encode : List Nat → List Char
  | [] => []
  | [b1] => [b64Char (b1 / 4), b64Char (b1 % 4 * 16), '=', '=']
  | [b1, b2] => [b64Char (b1 / 4), b64Char (b1 % 4 * 16 + b2 / 16), b64Char (b2 % 16 * 4), '=']
  | b1 :: b2 :: b3 :: rest =>
    b64Char (b1 / 4) :: b64Char (b1 % 4 * 16 + b2 / 16) ::
      b64Char (b2 % 16 * 4 + b3 / 64) :: b64Char (b3 % 64) :: b64Encode rest

/-- Standard base64 decoding: four characters per chunk, padding only at the
very end, `none` on any malformed input. -/
def b64Decode : List Char → Option (List Nat)
  | [] => some []
  | c1 :: c2 :: c3 :: c4 :: rest =>
    if c3 = '=' then
      if c4 = '=' ∧ rest = [] then
        match b64Index c1, b64Index c2 with
        | some i1, some i2 => some [i1 * 4 + i2 / 16]
        | _, _ => none
      else none
    else if c4 = '=' then
      if rest = [] then
        match b64Index c1, b64Index c2, b64Index c3 with
        | some i1, some i2, some i3 => some [i1 * 4 + i2 / 16, i2 % 16 * 16 + i3 / 4]
        | _, _, _ => none
      else none
    else
      match b64Index c1, b64Index c2, b64Index c3, b64Index c4, b64Decode rest with
      | some i1, some i2, some i3, some i4, some bs =>
        some ((i1 * 4 + i2 / 16) :: (i2 % 16 * 16 + i3 / 4) :: (i3 % 4 * 64 + i4) :: bs)
      | _, _, _, _, _ => none
  | _ => none

/-- Little-endian decimal digits of `n`; `fuel ≥ n` suffices. -/
def natToDigits (fuel n : Nat) : List Nat :=
  match fuel with
  | 0 => []
  | fuel + 1 => if n = 0 then [] else n % 10 :: natToDigits fuel (n / 10)

/-- The ASCII digit character of a decimal digit. -/
def digitChar (d : Nat) : Char := Char.ofNat (48 + d)

/-- The decimal digit of an ASCII digit character, `none` for any other. -/
def charDigit (c : Char) : Option Nat :=
  if 48 ≤ c.toNat ∧ c.toNat ≤ 57 then some (c.toNat - 48) else none

/-- The decimal notation of a natural number, most significant digit first. -/
def natKeyChars (n : Nat) : List Char :=
  if n = 0 then ['0'] else (natToDigits n n).reverse.map digitChar

/-- The decimal string `json.Marshal` emits for an integer map key. -/
def intKeyStr (i : Int) : String :=
  if i < 0 then String.mk ('-' :: natKeyChars (-i).toNat) else String.mk (natKeyChars i.toNat)

/-- Horner evaluation of decimal characters, most significant first. -/
def parseNatDigits : List Char → Nat → Option Nat
  | [], acc => some acc
  | c :: rest, acc =>
    match charDigit c with
    | some d => parseNatDigits rest (acc * 10 + d)
    | none => none

/-- The value of little-endian decimal digits. -/
def digitsVal : List Nat → Nat
  | [] => 0
  | d :: ds => d + 10 * digitsVal ds

/-- The integer a run of characters denotes (`strconv.ParseInt` on the forms
the encoder emits): a nonempty run of digits, optionally after a minus sign. -/
def parseIntChars (cs : List Char) : Option Int :=
  match cs with
  | [] => none
  | c :: rest =>
    if c = '-' then
      if rest = [] then none else (parseNatDigits rest 0).map (fun n => -(n : Int))
    else (parseNatDigits (c :: rest) 0).map (fun n => (n : Int))

/-- The integer a map key string denotes. -/
def parseIntKey (s : String) : Option Int := parseIntChars s.data

/-- The JSON object `json.Marshal` emits for a `User`: the five struct fields
in declaration order, under their wire names, password as base64. -/
def marshalUser (u : User) : Json :=
  Json.jobj [("email", Json.jstr u.Email), ("id", Json.jnum u.ID),
    ("password", Json.jstr (String.mk (b64Encode u.Password))),
    ("refreshToken", Json.jstr u.RefreshToken),
    ("is_chirpy_red", Json.jbool u.IsChirpyRed)]

/-- Field access in a decoded JSON object. -/
def jlookup (fields : List (String × Json)) (k : String) : Option Json :=
  match fields with
  | [] => none
  | (k', v) :: rest => if k' = k then some v else jlookup rest k

/-- `json.Unmarshal` of a string struct field: missing keeps the zero value,
a non-string value is a type error. -/
def getStrField (fields : List (String × Json)) (k : String) : Option String :=
  match jlookup fields k with
  | some (Json.jstr s) => some s
  | none => some ""
  | some _ => none

/-- `json.Unmarshal` of an int struct field. -/
def getIntField (fields : List (String × Json)) (k : String) : Option Int :=
  match jlookup fields k with
  | some (Json.jnum n) => some n
  | none => some 0
  | some _ => none

/-- `json.Unmarshal` of a bool struct field. -/
def getBoolField (fields : List (String × Json)) (k : String) : Option Bool :=
  match jlookup fields k with
  | some (Json.jbool b) => some b
  | none => some false
  | some _ => none

/-- `json.Unmarshal` of a `[]byte` struct field: base64 decoding of a string
value, the empty sequence when missing. -/
def getBytesField (fields : List (String × Json)) (k : String) : Option (List Nat) :=
  match jlookup fields k with
  | some (Json.jstr s) => b64Decode s.data
  | none => some []
  | some _ => none

/-- `json.Unmarshal` of a `User` value. -/
def unmarshalUser (j : Json) : Option User :=
  match j with
  | Json.jobj fields =>
    match getStrField fields "email", getIntField fields "id",
      getBytesField fields "password", getStrField fields "refreshToken",
      getBoolField fields "is_chirpy_red" with
    | some e, some i, some p, some r, some b =>
      some { Email := e, ID := i, Password := p, RefreshToken := r, IsChirpyRed := b }
    | _, _, _, _, _ => none
  | _ => none

/-- Ordering of document entries by key, the order marshalling emits. -/
def keyLE (a b : Int × User) : Prop := a.1 ≤ b.1

instance : DecidableRel keyLE := fun a b => inferInstanceAs (Decidable (a.1 ≤ b.1))

instance : IsTotal (Int × User) keyLE := ⟨fun a b => Int.le_total a.1 b.1⟩

instance : IsTrans (Int × User) keyLE := ⟨fun _ _ _ h1 h2 => le_trans h1 h2⟩

/-- `writeUserDB`: the file content `json.Marshal` produces for the document,
`{"users": {"<id>": {...}, ...}}` with keys in sorted order. -/
def writeUserDB (d : DBUserStructure) : Json :=
  Json.jobj [("users", Json.jobj ((List.insertionSort keyLE d.Users).map
    (fun p => (intKeyStr p.1, marshalUser p.2))))]

/-- `json.Unmarshal` of the entries of the `users` object: every key must
parse as an integer and every value as a `User`. -/
def unmarshalEntries : List (String × Json) → Option (List (Int × User))
  | [] => some []
  | (k, v) :: rest =>
    match parseIntKey k, unmarshalUser v, unmarshalEntries rest with
    | some i, some u, some l => some ((i, u) :: l)
    | _, _, _ => none

/-- `loadUserDB`: `json.Unmarshal` of a file content into a document; a
missing `users` key leaves the zero (empty) map. -/
def loadUserDB (j : Json) : Option DBUserStructure :=
  match j with
  | Json.jobj fields =>
    match jlookup fields "users" with
    | some (Json.jobj entries) => (unmarshalEntries entries).map DBUserStructure.mk
    | none => some emptyDB
    | some _ => none
  | _ => none

/-- What holds of every document a Go `map[int]User` can be: the keys are
distinct, and every password is a byte sequence. -/
def WFDoc (d : DBUserStructure) : Prop :=
  (d.Users.map Prod.fst).Nodup ∧ ∀ p ∈ d.Users, ∀ b ∈ p.2.Password, b < 256

/-- Documents reachable from the empty store by the five mutating store
operations. -/
inductive Reachable : DBUserStructure → Prop where
  | empty : Reachable emptyDB
  | create (db : DBUserStructure) (e : String) (p : List Nat) :
      Reachable db → Reachable (CreateUser db e p).2
  | update (db : DBUserStructure) (ID : Int) (e : String) (p : List Nat) :
      Reachable db → Reachable (UpdateUserDB db ID e p).2
  | upgrade (db : DBUserStructure) (ID : Int) :
      Reachable db → Reachable (UpgradeUser db ID).2
  | store (db : DBUserStructure) (ID : Int) (tok : String) :
      Reachable db → Reachable (StoreToken db ID tok)
  | revoke (db : DBUserStructure) (ID : Int) :
      Reachable db → Reachable (RevokeToken db ID)

/-! ### Lemmas about the map embedding -/

theorem mapLookup_mapInsert_self (k : Int) (v : User) (l : List (Int × User)) :
    mapLookup (mapInsert k v l) k = some v := by
  induction l with
  | nil => simp [mapInsert, mapLookup]
  | cons hd tl ih =>
    obtain ⟨k', v'⟩ := hd
    by_cases h : k' = k
    · subst h; simp [mapInsert, mapLookup]
    · simp [mapInsert, mapLookup, h, ih]

theorem mapLookup_mapInsert_ne (k k' : Int) (v : User) (l : List (Int × User))
    (h : k' ≠ k) : mapLookup (mapInsert k v l) k' = mapLookup l k' := by
  induction l with
  | nil =>
    have hne : ¬k = k' := fun hh => h hh.symm
    simp [mapInsert, mapLookup, hne]
  | cons hd tl ih =>
    obtain ⟨k'', v''⟩ := hd
    by_cases h1 : k'' = k
    · subst h1
      have hne : ¬k'' = k' := fun hh => h hh.symm
      simp [mapInsert, mapLookup, hne]
    · by_cases h2 : k'' = k'
      · subst h2; simp [mapInsert, mapLookup, h1]
      · simp [mapInsert, mapLookup, h1, h2, ih]

theorem mapLookup_mem {l : List (Int × User)} {k : Int} {u : User}
    (h : mapLookup l k = some u) : (k, u) ∈ l := by
  induction l with
  | nil => simp [mapLookup] at h
  | cons hd tl ih =>
    obtain ⟨k', v'⟩ := hd
    by_cases h1 : k' = k
    · subst h1
      simp [mapLookup] at h
      subst h
      exact List.mem_cons_self _ _
    · simp [mapLookup, h1] at h
      exact List.mem_cons_of_mem _ (ih h)

theorem mem_mapInsert {l : List (Int × User)} {k k' : Int} {v v' : User}
    (h : (k', v') ∈ mapInsert k v l) : (k' = k ∧ v' = v) ∨ (k', v') ∈ l := by
  induction l with
  | nil =>
    simp [mapInsert] at h
    exact Or.inl ⟨h.1, h.2⟩
  | cons hd tl ih =>
    obtain ⟨k'', v''⟩ := hd
    by_cases h1 : k'' = k
    · subst h1
      simp [mapInsert] at h
      rcases h with ⟨hk, hv⟩ | hm
      · exact Or.inl ⟨hk, hv⟩
      · exact Or.inr (List.mem_cons_of_mem _ hm)
    · simp [mapInsert, h1] at h
      rcases h with ⟨hk, hv⟩ | hm
      · subst hk; subst hv
        exact Or.inr (List.mem_cons_self _ _)
      · rcases ih hm with hnew | hold
        · exact Or.inl hnew
        · exact Or.inr (List.mem_cons_of_mem _ hold)

theorem mapInsert_mapInsert_same (k : Int) (v : User) (l : List (Int × User)) :
    mapInsert k v (mapInsert k v l) = mapInsert k v l := by
  induction l with
  | nil => simp [mapInsert]
  | cons hd tl ih =>
    obtain ⟨k', v'⟩ := hd
    by_cases h : k' = k
    · subst h; simp [mapInsert]
    · simp [mapInsert, h, ih]

theorem mapInsert_eq_append {l : List (Int × User)} {k : Int} (v : User)
    (h : ∀ p ∈ l, p.1 ≠ k) : mapInsert k v l = l ++ [(k, v)] := by
  induction l with
  | nil => simp [mapInsert]
  | cons hd tl ih =>
    obtain ⟨k', v'⟩ := hd
    have hne : k' ≠ k := h (k', v') (List.mem_cons_self _ _)
    simp [mapInsert, hne]
    exact ih fun p hp => h p (List.mem_cons_of_mem _ hp)

/-! ### Claim theorems: the store operations -/

/-- C6: for every document state, `GetUser` (ListAll) returns all records of
the document — a permutation of the map's values — sorted ascending by the
`ID` field, whatever the iteration order of the underlying map. -/
theorem getUser_sorted_perm (db : DBUserStructure) :
    List.Sorted userLE (GetUser db) ∧ (GetUser db).Perm (db.Users.map Prod.snd) :=
  ⟨List.sorted_insertionSort userLE _, List.perm_insertionSort userLE _⟩

/-- C2: `GetUserByID db ID` returns exactly the element at position `ID - 1`
of the ascending-by-ID list `GetUser db` when `1 ≤ ID ≤ N`, and fails with
the `"invalid ID"` error when `ID ≤ 0` or `ID > N`, where `N` is the number
of records in the document. -/
theorem getUserByID_spec (db : DBUserStructure) (ID : Int) :
    (1 ≤ ID → ID ≤ (db.Users.length : Int) →
      (ID - 1).toNat < (GetUser db).length ∧
      GetUserByID db ID = Except.ok ((GetUser db).getD (ID - 1).toNat emptyUser)) ∧
    ((ID ≤ 0 ∨ (db.Users.length : Int) < ID) →
      GetUserByID db ID = Except.error "invalid ID") := by
  have hlen : (GetUser db).length = db.Users.length := by
    simp [GetUser]
  constructor
  · intro h1 h2
    have hguard : ¬(((GetUser db).length : Int) < ID ∨ ID ≤ 0) := by
      rw [hlen]; omega
    constructor
    · omega
    · simp only [GetUserByID, if_neg hguard]
  · intro h
    have hguard : ((GetUser db).length : Int) < ID ∨ ID ≤ 0 := by
      rw [hlen]; omega
    simp only [GetUserByID, if_pos hguard]

/-- C2 witness: on the two-record document, ID 2 hits position 1 of the
sorted list, while IDs 3 and 0 are rejected. -/
theorem getUserByID_spec_witness :
    GetUserByID sampleDB2 2 = Except.ok ((GetUser sampleDB2).getD 1 emptyUser) ∧
    GetUserByID sampleDB2 3 = Except.error "invalid ID" ∧
    GetUserByID sampleDB2 0 = Except.error "invalid ID" :=
  ⟨((getUserByID_spec sampleDB2 2).1 (by decide) (by decide)).2,
   (getUserByID_spec sampleDB2 3).2 (by decide),
   (getUserByID_spec sampleDB2 0).2 (by decide)⟩

/-- C3: at an ID absent from the document, `UpdateUserDB` returns the zero
`User` record and the document unchanged, and `StoreToken` and `RevokeToken`
return the document unchanged; none of the three reports an error (the
written file merely repeats the loaded content). -/
theorem absent_id_silent_noop (db : DBUserStructure) (ID : Int) (e : String)
    (p : List Nat) (tok : String) (h : mapLookup db.Users ID = none) :
    UpdateUserDB db ID e p = (emptyUser, db) ∧
    StoreToken db ID tok = db ∧
    RevokeToken db ID = db := by
  refine ⟨?_, ?_, ?_⟩
  · simp only [UpdateUserDB, h]
    rfl
  · simp only [StoreToken, h]
  · simp only [RevokeToken, h]

/-- C3 witness: ID 5 is absent from the one-record document. -/
theorem absent_id_silent_noop_witness :
    UpdateUserDB sampleDB 5 "c@x.com" [9] = (emptyUser, sampleDB) ∧
    StoreToken sampleDB 5 "t" = sampleDB ∧
    RevokeToken sampleDB 5 = sampleDB :=
  absent_id_silent_noop sampleDB 5 "c@x.com" [9] "t" (by decide)

/-- C4: at an ID present in the document with record `u`, `UpdateUserDB`
returns the record with email and password replaced, stores it under `ID`,
leaves every other key's binding unchanged, and the updated record keeps
`u`'s ID, refresh token and upgrade flag. -/
theorem updateUserDB_spec (db : DBUserStructure) (ID : Int) (e : String)
    (p : List Nat) (u : User) (h : mapLookup db.Users ID = some u) :
    (UpdateUserDB db ID e p).1 = { u with Email := e, Password := p } ∧
    mapLookup (UpdateUserDB db ID e p).2.Users ID = some { u with Email := e, Password := p } ∧
    (∀ k, k ≠ ID → mapLookup (UpdateUserDB db ID e p).2.Users k = mapLookup db.Users k) ∧
    ({ u with Email := e, Password := p } : User).ID = u.ID ∧
    ({ u with Email := e, Password := p } : User).RefreshToken = u.RefreshToken ∧
    ({ u with Email := e, Password := p } : User).IsChirpyRed = u.IsChirpyRed := by
  refine ⟨?_, ?_, ?_, rfl, rfl, rfl⟩
  · simp only [UpdateUserDB, h, mapLookup_mapInsert_self, Option.getD_some]
  · simp only [UpdateUserDB, h, mapLookup_mapInsert_self]
  · intro k hk
    simp only [UpdateUserDB, h]
    exact mapLookup_mapInsert_ne ID k _ db.Users hk

/-- C4 witness: updating the record stored under ID 1 of the two-record
document; the binding of key 2 is untouched. -/
theorem updateUserDB_spec_witness :
    (UpdateUserDB sampleDB2 1 "c@x.com" [9]).1 =
      { sampleUser with Email := "c@x.com", Password := [9] } ∧
    mapLookup (UpdateUserDB sampleDB2 1 "c@x.com" [9]).2.Users 2 =
      mapLookup sampleDB2.Users 2 :=
  ⟨(updateUserDB_spec sampleDB2 1 "c@x.com" [9] sampleUser (by decide)).1,
   (updateUserDB_spec sampleDB2 1 "c@x.com" [9] sampleUser (by decide)).2.2.1 2 (by decide)⟩

/-- C5: `UpgradeUser` at a present ID succeeds, stores the record with the
upgrade flag set, and is idempotent — running it again on the result returns
success and the very same document; at an absent ID it fails with
`"invalid user id"` and the document is unchanged. -/
theorem upgradeUser_spec (db : DBUserStructure) (ID : Int) :
    (∀ u, mapLookup db.Users ID = some u →
      (UpgradeUser db ID).1 = Except.ok () ∧
      mapLookup (UpgradeUser db ID).2.Users ID = some { u with IsChirpyRed := true } ∧
      UpgradeUser (UpgradeUser db ID).2 ID = (Except.ok (), (UpgradeUser db ID).2)) ∧
    (mapLookup db.Users ID = none →
      UpgradeUser db ID = (Except.error "invalid user id", db)) := by
  constructor
  · intro u h
    have h1 : UpgradeUser db ID =
        (Except.ok (), ⟨mapInsert ID { u with IsChirpyRed := true } db.Users⟩) := by
      simp only [UpgradeUser, h]
    refine ⟨by rw [h1], ?_, ?_⟩
    · rw [h1]
      exact mapLookup_mapInsert_self _ _ _
    · rw [h1]
      simp only [UpgradeUser, mapLookup_mapInsert_self]
      exact congrArg (fun l => (Except.ok (), DBUserStructure.mk l))
        (mapInsert_mapInsert_same ID { u with IsChirpyRed := true } db.Users)
  · intro h
    simp only [UpgradeUser, h]

/-- C5 witness: ID 1 is present in the one-record document, ID 5 absent. -/
theorem upgradeUser_spec_witness :
    (UpgradeUser sampleDB 1).1 = Except.ok () ∧
    UpgradeUser (UpgradeUser sampleDB 1).2 1 = (Except.ok (), (UpgradeUser sampleDB 1).2) ∧
    UpgradeUser sampleDB 5 = (Except.error "invalid user id", sampleDB) :=
  ⟨((upgradeUser_spec sampleDB 1).1 sampleUser (by decide)).1,
   ((upgradeUser_spec sampleDB 1).1 sampleUser (by decide)).2.2,
   (upgradeUser_spec sampleDB 5).2 (by decide)⟩

/-- C10: every record `CreateUser` builds — for any prior document and hence
under no uniqueness condition on the email — carries the given email and
password, the ID `len + 1`, an empty refresh token (no active token) and a
false upgrade flag, and is exactly the value returned to the caller. -/
theorem createUser_fields (db : DBUserStructure) (e : String) (p : List Nat) :
    (CreateUser db e p).1 =
      { Email := e, ID := (db.Users.length : Int) + 1, Password := p,
        RefreshToken := "", IsChirpyRed := false } ∧
    (CreateUser db e p).1.RefreshToken = "" ∧
    (CreateUser db e p).1.IsChirpyRed = false := by
  have h : (CreateUser db e p).1 =
      { Email := e, ID := (db.Users.length : Int) + 1, Password := p,
        RefreshToken := "", IsChirpyRed := false } := by
    simp only [CreateUser, mapLookup_mapInsert_self, Option.getD_some]
  exact ⟨h, by rw [h], by rw [h]⟩

/-! ### A run of Create calls from the empty store -/

theorem mkCreated_length (inputs : List (String × List Nat)) :
    ∀ n, (mkCreated n inputs).length = inputs.length := by
  induction inputs with
  | nil => intro n; simp [mkCreated]
  | cons hd rest ih =>
    obtain ⟨e, p⟩ := hd
    intro n
    simp [mkCreated, ih (n + 1)]

theorem mkCreated_keys (inputs : List (String × List Nat)) :
    ∀ n, (mkCreated n inputs).map Prod.fst =
      (List.range inputs.length).map (fun i => ((n + i : Nat) : Int) + 1) := by
  induction inputs with
  | nil => intro n; simp [mkCreated]
  | cons hd rest ih =>
    obtain ⟨e, p⟩ := hd
    intro n
    simp only [mkCreated, List.map_cons, ih (n + 1), List.length_cons]
    rw [List.range_succ_eq_map, List.map_cons, List.map_map]
    refine congrArg₂ List.cons (by simp) ?_
    refine List.map_congr_left fun i _ => ?_
    simp only [Function.comp_apply]
    push_cast
    ring

theorem mkCreated_snd_ID (inputs : List (String × List Nat)) :
    ∀ n, ∀ q ∈ mkCreated n inputs, q.2.ID = q.1 := by
  induction inputs with
  | nil => intro n q hq; simp [mkCreated] at hq
  | cons hd rest ih =>
    obtain ⟨e, p⟩ := hd
    intro n q hq
    rcases List.mem_cons.mp hq with hq | hq
    · subst hq; rfl
    · exact ih (n + 1) q hq

theorem createRun_go (inputs : List (String × List Nat)) :
    ∀ l : List (Int × User), (∀ q ∈ l, q.1 ≤ (l.length : Int)) →
      createRun inputs ⟨l⟩ =
        ((mkCreated l.length inputs).map Prod.snd, ⟨l ++ mkCreated l.length inputs⟩) := by
  induction inputs with
  | nil =>
    intro l _
    simp [createRun, mkCreated]
  | cons hd rest ih =>
    obtain ⟨e, p⟩ := hd
    intro l hl
    have hnot : ∀ q ∈ l, q.1 ≠ (l.length : Int) + 1 := by
      intro q hq
      have := hl q hq
      omega
    have hu1 : (CreateUser ⟨l⟩ e p).1 = newUser l.length e p := by
      simp [CreateUser, newUser, mapLookup_mapInsert_self]
    have hu2 : (CreateUser ⟨l⟩ e p).2 =
        ⟨l ++ [((l.length : Int) + 1, newUser l.length e p)]⟩ := by
      simp only [CreateUser]
      exact congrArg DBUserStructure.mk (mapInsert_eq_append _ hnot)
    have hstep : ∀ q ∈ l ++ [((l.length : Int) + 1, newUser l.length e p)],
        q.1 ≤ ((l ++ [((l.length : Int) + 1, newUser l.length e p)]).length : Int) := by
      intro q hq
      rw [List.length_append, List.length_singleton]
      rcases List.mem_append.mp hq with hq | hq
      · have := hl q hq
        push_cast
        omega
      · rcases List.mem_singleton.mp hq with rfl
        push_cast
        simp
    have hrec := ih (l ++ [((l.length : Int) + 1, newUser l.length e p)]) hstep
    have hlen : (l ++ [((l.length : Int) + 1, newUser l.length e p)]).length = l.length + 1 := by
      simp
    rw [hlen] at hrec
    simp only [createRun, hu1, hu2, hrec, mkCreated, List.map_cons]
    rw [List.append_assoc, List.singleton_append]

/-- C1: running any sequence of `CreateUser` calls from the empty store
yields exactly the document `mkCreated 0 inputs`, whose i-th entry is the
record built from the i-th input with ID `i + 1` — the count of records
before that insert plus one — stored under that same key; the records handed
back to the callers are exactly the stored ones in creation order, the final
document has as many entries as there were calls, and its keys are `1..N` in
creation order. -/
theorem createRun_spec (inputs : List (String × List Nat)) :
    createRun inputs emptyDB = ((mkCreated 0 inputs).map Prod.snd, ⟨mkCreated 0 inputs⟩) ∧
    (createRun inputs emptyDB).2.Users.length = inputs.length ∧
    (createRun inputs emptyDB).2.Users.map Prod.fst =
      (List.range inputs.length).map (fun i => Int.ofNat i + 1) ∧
    ∀ q ∈ (createRun inputs emptyDB).2.Users, q.2.ID = q.1 := by
  have h0 : createRun inputs emptyDB =
      ((mkCreated 0 inputs).map Prod.snd, ⟨mkCreated 0 inputs⟩) := by
    have := createRun_go inputs [] (by simp)
    simpa [emptyDB] using this
  refine ⟨h0, ?_, ?_, ?_⟩
  · rw [h0]
    exact mkCreated_length inputs 0
  · rw [h0]
    exact (mkCreated_keys inputs 0).trans
      (List.map_congr_left fun i _ => by rw [Int.ofNat_eq_natCast]; omega)
  · rw [h0]
    exact mkCreated_snd_ID inputs 0

/-! ### The ID-equals-key invariant -/

/-- C8: in every document reachable from the empty store by the store's
mutating operations, each record's `ID` field equals the map key it is
stored under. -/
theorem reachable_id_eq_key : ∀ db : DBUserStructure, Reachable db →
    ∀ k u, (k, u) ∈ db.Users → u.ID = k := by
  intro db h
  induction h with
  | empty =>
    intro k u hm
    simp [emptyDB] at hm
  | create db' e p _ ih =>
    intro k u hm
    have hm' : (k, u) ∈ mapInsert ((db'.Users.length : Int) + 1)
        { Email := e, ID := (db'.Users.length : Int) + 1, Password := p,
          RefreshToken := "", IsChirpyRed := false } db'.Users := by
      simpa [CreateUser] using hm
    rcases mem_mapInsert hm' with ⟨hk, hv⟩ | hmem
    · subst hk; rw [hv]
    · exact ih k u hmem
  | update db' ID e p _ ih =>
    intro k u hm
    rcases hcase : mapLookup db'.Users ID with _ | w
    · have hm' : (k, u) ∈ db'.Users := by
        simpa [UpdateUserDB, hcase] using hm
      exact ih k u hm'
    · have hw : w.ID = ID := ih ID w (mapLookup_mem hcase)
      have hm' : (k, u) ∈ mapInsert ID { w with Email := e, Password := p } db'.Users := by
        simpa [UpdateUserDB, hcase] using hm
      rcases mem_mapInsert hm' with ⟨hk, hv⟩ | hmem
      · subst hk; rw [hv]; exact hw
      · exact ih k u hmem
  | upgrade db' ID _ ih =>
    intro k u hm
    rcases hcase : mapLookup db'.Users ID with _ | w
    · have hm' : (k, u) ∈ db'.Users := by
        simpa [UpgradeUser, hcase] using hm
      exact ih k u hm'
    · have hw : w.ID = ID := ih ID w (mapLookup_mem hcase)
      have hm' : (k, u) ∈ mapInsert ID { w with IsChirpyRed := true } db'.Users := by
        simpa [UpgradeUser, hcase] using hm
      rcases mem_mapInsert hm' with ⟨hk, hv⟩ | hmem
      · subst hk; rw [hv]; exact hw
      · exact ih k u hmem
  | store db' ID tok _ ih =>
    intro k u hm
    rcases hcase : mapLookup db'.Users ID with _ | w
    · have hm' : (k, u) ∈ db'.Users := by
        simpa [StoreToken, hcase] using hm
      exact ih k u hm'
    · have hw : w.ID = ID := ih ID w (mapLookup_mem hcase)
      have hm' : (k, u) ∈ mapInsert ID { w with RefreshToken := tok } db'.Users := by
        simpa [StoreToken, hcase] using hm
      rcases mem_mapInsert hm' with ⟨hk, hv⟩ | hmem
      · subst hk; rw [hv]; exact hw
      · exact ih k u hmem
  | revoke db' ID _ ih =>
    intro k u hm
    rcases hcase : mapLookup db'.Users ID with _ | w
    · have hm' : (k, u) ∈ db'.Users := by
        simpa [RevokeToken, hcase] using hm
      exact ih k u hm'
    · have hw : w.ID = ID := ih ID w (mapLookup_mem hcase)
      have hm' : (k, u) ∈ mapInsert ID { w with RefreshToken := "" } db'.Users := by
        simpa [RevokeToken, hcase] using hm
      rcases mem_mapInsert hm' with ⟨hk, hv⟩ | hmem
      · subst hk; rw [hv]; exact hw
      · exact ih k u hmem

/-- C8 witness: the store reached by one `CreateUser` call is reachable, and
its single record — the one returned by the call, stored under key 1 — has
ID 1. -/
theorem reachable_id_eq_key_witness : (CreateUser emptyDB "a" []).1.ID = 1 :=
  reachable_id_eq_key (CreateUser emptyDB "a" []).2
    (Reachable.create emptyDB "a" [] Reachable.empty) 1
    (CreateUser emptyDB "a" []).1 (by decide)

/-- C1 witness: a run of two creates from the empty store, with the ID of
the first created record evaluated through the characterization. -/
theorem createRun_spec_witness :
    createRun [("a@x.com", [1]), ("b@x.com", [2])] emptyDB =
      ((mkCreated 0 [("a@x.com", [1]), ("b@x.com", [2])]).map Prod.snd,
        ⟨mkCreated 0 [("a@x.com", [1]), ("b@x.com", [2])]⟩) ∧
    (newUser 0 "a@x.com" [1]).ID = 1 :=
  ⟨(createRun_spec [("a@x.com", [1]), ("b@x.com", [2])]).1,
   (createRun_spec [("a@x.com", [1]), ("b@x.com", [2])]).2.2.2
     ((1 : Int), newUser 0 "a@x.com" [1]) (by decide)⟩

/-! ### Base64 round trip -/

theorem b64Index_b64Char : ∀ i < 64, b64Index (b64Char i) = some i := by decide

theorem b64Char_ne_pad : ∀ i < 64, b64Char i ≠ '=' := by decide

theorem b64_roundtrip : ∀ bs : List Nat, (∀ b ∈ bs, b < 256) →
    b64Decode (b64Encode bs) = some bs
  | [], _ => rfl
  | [b1], h => by
    have hb1 : b1 < 256 := h b1 (by simp)
    have e1 : b64Index (b64Char (b1 / 4)) = some (b1 / 4) :=
      b64Index_b64Char _ (by omega)
    have e2 : b64Index (b64Char (b1 % 4 * 16)) = some (b1 % 4 * 16) :=
      b64Index_b64Char _ (by omega)
    have harith : b1 / 4 * 4 + b1 % 4 * 16 / 16 = b1 := by omega
    simp [b64Encode, b64Decode, e1, e2]
    omega
  | [b1, b2], h => by
    have hb1 : b1 < 256 := h b1 (by simp)
    have hb2 : b2 < 256 := h b2 (by simp)
    have e1 : b64Index (b64Char (b1 / 4)) = some (b1 / 4) :=
      b64Index_b64Char _ (by omega)
    have e2 : b64Index (b64Char (b1 % 4 * 16 + b2 / 16)) = some (b1 % 4 * 16 + b2 / 16) :=
      b64Index_b64Char _ (by omega)
    have e3 : b64Index (b64Char (b2 % 16 * 4)) = some (b2 % 16 * 4) :=
      b64Index_b64Char _ (by omega)
    have n3 : b64Char (b2 % 16 * 4) ≠ '=' := b64Char_ne_pad _ (by omega)
    have ha1 : b1 / 4 * 4 + (b1 % 4 * 16 + b2 / 16) / 16 = b1 := by omega
    have ha2 : (b1 % 4 * 16 + b2 / 16) % 16 * 16 + b2 % 16 * 4 / 4 = b2 := by omega
    simp [b64Encode, b64Decode, e1, e2, e3, n3]
    omega
  | b1 :: b2 :: b3 :: rest, h => by
    have hb1 : b1 < 256 := h b1 (by simp)
    have hb2 : b2 < 256 := h b2 (by simp)
    have hb3 : b3 < 256 := h b3 (by simp)
    have ih := b64_roundtrip rest (fun b hb => h b (by simp [hb]))
    have e1 : b64Index (b64Char (b1 / 4)) = some (b1 / 4) :=
      b64Index_b64Char _ (by omega)
    have e2 : b64Index (b64Char (b1 % 4 * 16 + b2 / 16)) = some (b1 % 4 * 16 + b2 / 16) :=
      b64Index_b64Char _ (by omega)
    have e3 : b64Index (b64Char (b2 % 16 * 4 + b3 / 64)) = some (b2 % 16 * 4 + b3 / 64) :=
      b64Index_b64Char _ (by omega)
    have e4 : b64Index (b64Char (b3 % 64)) = some (b3 % 64) :=
      b64Index_b64Char _ (by omega)
    have n3 : b64Char (b2 % 16 * 4 + b3 / 64) ≠ '=' := b64Char_ne_pad _ (by omega)
    have n4 : b64Char (b3 % 64) ≠ '=' := b64Char_ne_pad _ (by omega)
    have ha1 : b1 / 4 * 4 + (b1 % 4 * 16 + b2 / 16) / 16 = b1 := by omega
    have ha2 : (b1 % 4 * 16 + b2 / 16) % 16 * 16 + (b2 % 16 * 4 + b3 / 64) / 4 = b2 := by
      omega
    have ha3 : (b2 % 16 * 4 + b3 / 64) % 4 * 64 + b3 % 64 = b3 := by omega
    simp [b64Encode, b64Decode, e1, e2, e3, e4, n3, n4, ih]
    refine ⟨by omega, by omega, by omega⟩

/-! ### Decimal key round trip -/

theorem charDigit_digitChar : ∀ d < 10, charDigit (digitChar d) = some d := by decide

theorem digitChar_ne_dash : ∀ d < 10, digitChar d ≠ '-' := by decide

theorem natToDigits_lt (fuel : Nat) : ∀ n, ∀ d ∈ natToDigits fuel n, d < 10 := by
  induction fuel with
  | zero => intro n d hd; simp [natToDigits] at hd
  | succ fuel ih =>
    intro n d hd
    by_cases h0 : n = 0
    · simp [natToDigits, h0] at hd
    · simp only [natToDigits, if_neg h0] at hd
      rcases List.mem_cons.mp hd with rfl | hd
      · omega
      · exact ih (n / 10) d hd

theorem digitsVal_natToDigits : ∀ fuel n, n ≤ fuel → digitsVal (natToDigits fuel n) = n := by
  intro fuel
  induction fuel with
  | zero =>
    intro n hn
    have : n = 0 := by omega
    subst this
    rfl
  | succ fuel ih =>
    intro n hn
    by_cases h0 : n = 0
    · subst h0; rfl
    · simp only [natToDigits, if_neg h0, digitsVal]
      have : n / 10 ≤ fuel := by omega
      rw [ih (n / 10) this]
      omega

theorem parseNatDigits_append (l1 l2 : List Char) :
    ∀ acc, parseNatDigits (l1 ++ l2) acc =
      (parseNatDigits l1 acc).bind (fun a => parseNatDigits l2 a) := by
  induction l1 with
  | nil => intro acc; simp [parseNatDigits]
  | cons c cs ih =>
    intro acc
    simp only [List.cons_append, parseNatDigits]
    cases charDigit c with
    | none => rfl
    | some d => exact ih (acc * 10 + d)

theorem parseNatDigits_rev (ds : List Nat) (h : ∀ d ∈ ds, d < 10) :
    ∀ acc, parseNatDigits (ds.reverse.map digitChar) acc =
      some (acc * 10 ^ ds.length + digitsVal ds) := by
  induction ds with
  | nil => intro acc; simp [parseNatDigits, digitsVal]
  | cons d ds ih =>
    intro acc
    have hd : d < 10 := h d (List.mem_cons_self _ _)
    have hds : ∀ x ∈ ds, x < 10 := fun x hx => h x (List.mem_cons_of_mem _ hx)
    rw [List.reverse_cons, List.map_append, parseNatDigits_append, ih hds acc]
    simp only [List.map_cons, List.map_nil, Option.some_bind, parseNatDigits,
      charDigit_digitChar d hd, digitsVal, List.length_cons]
    congr 1
    ring

theorem parseNat_natKey (n : Nat) : parseNatDigits (natKeyChars n) 0 = some n := by
  by_cases h0 : n = 0
  · subst h0; decide
  · rw [natKeyChars, if_neg h0,
      parseNatDigits_rev (natToDigits n n) (natToDigits_lt n n) 0,
      digitsVal_natToDigits n n le_rfl]
    simp

theorem natKeyChars_ne_nil (n : Nat) : natKeyChars n ≠ [] := by
  by_cases h0 : n = 0
  · subst h0; decide
  · rw [natKeyChars, if_neg h0]
    obtain ⟨k, rfl⟩ : ∃ k, n = k + 1 := ⟨n - 1, by omega⟩
    simp [natToDigits]

theorem mem_natKeyChars (n : Nat) : ∀ c ∈ natKeyChars n, ∃ d, d < 10 ∧ c = digitChar d := by
  intro c hc
  by_cases h0 : n = 0
  · subst h0
    simp [natKeyChars] at hc
    exact ⟨0, by omega, by rw [hc]; rfl⟩
  · rw [natKeyChars, if_neg h0] at hc
    rcases List.mem_map.mp hc with ⟨d, hd, rfl⟩
    exact ⟨d, natToDigits_lt n n d (List.mem_reverse.mp hd), rfl⟩

theorem parseIntKey_intKeyStr (i : Int) : parseIntKey (intKeyStr i) = some i := by
  rw [parseIntKey, intKeyStr]
  by_cases h : i < 0
  · rw [if_pos h]
    show parseIntChars ('-' :: natKeyChars (-i).toNat) = some i
    rw [parseIntChars]
    simp [natKeyChars_ne_nil, parseNat_natKey]
    omega
  · rw [if_neg h]
    show parseIntChars (natKeyChars i.toNat) = some i
    obtain ⟨c, cs, hcons⟩ : ∃ c cs, natKeyChars i.toNat = c :: cs := by
      cases hnk : natKeyChars i.toNat with
      | nil => exact absurd hnk (natKeyChars_ne_nil _)
      | cons c cs => exact ⟨c, cs, rfl⟩
    have hc : c ≠ '-' := by
      obtain ⟨d, hd, rfl⟩ := mem_natKeyChars _ c (hcons ▸ List.mem_cons_self c cs)
      exact digitChar_ne_dash d hd
    rw [hcons, parseIntChars]
    rw [if_neg hc, ← hcons, parseNat_natKey]
    simp
    omega

/-! ### Document round trip -/

theorem unmarshalUser_marshalUser (u : User) (h : ∀ b ∈ u.Password, b < 256) :
    unmarshalUser (marshalUser u) = some u := by
  have hpw : b64Decode (String.mk (b64Encode u.Password)).data = some u.Password := by
    show b64Decode (b64Encode u.Password) = some u.Password
    exact b64_roundtrip u.Password h
  simp [unmarshalUser, marshalUser, getStrField, getIntField, getBytesField,
    getBoolField, jlookup, hpw]

theorem unmarshalEntries_map (l : List (Int × User))
    (h : ∀ q ∈ l, ∀ b ∈ q.2.Password, b < 256) :
    unmarshalEntries (l.map fun q => (intKeyStr q.1, marshalUser q.2)) = some l := by
  induction l with
  | nil => rfl
  | cons hd tl ih =>
    obtain ⟨k, u⟩ := hd
    have h1 := parseIntKey_intKeyStr k
    have h2 := unmarshalUser_marshalUser u (h (k, u) (List.mem_cons_self _ _))
    have h3 := ih fun q hq => h q (List.mem_cons_of_mem _ hq)
    simp only [List.map_cons, unmarshalEntries, h1, h2, h3]

theorem loadUserDB_writeUserDB (d : DBUserStructure)
    (h : ∀ q ∈ d.Users, ∀ b ∈ q.2.Password, b < 256) :
    loadUserDB (writeUserDB d) = some ⟨List.insertionSort keyLE d.Users⟩ := by
  have hs : ∀ q ∈ List.insertionSort keyLE d.Users, ∀ b ∈ q.2.Password, b < 256 := by
    intro q hq
    exact h q ((List.perm_insertionSort keyLE d.Users).subset hq)
  have hred : loadUserDB (writeUserDB d) =
      Option.map DBUserStructure.mk (unmarshalEntries
        ((List.insertionSort keyLE d.Users).map fun p => (intKeyStr p.1, marshalUser p.2))) :=
    rfl
  rw [hred, unmarshalEntries_map _ hs]
  rfl

theorem mapLookup_eq_none_iff (l : List (Int × User)) (k : Int) :
    mapLookup l k = none ↔ ∀ q ∈ l, q.1 ≠ k := by
  induction l with
  | nil => simp [mapLookup]
  | cons hd tl ih =>
    obtain ⟨k', v'⟩ := hd
    by_cases hk : k' = k
    · subst hk
      simp [mapLookup]
    · simp [mapLookup, hk, ih]

theorem mapLookup_of_mem_nodup {l : List (Int × User)}
    (hnd : (l.map Prod.fst).Nodup) {k : Int} {u : User} (hm : (k, u) ∈ l) :
    mapLookup l k = some u := by
  induction l with
  | nil => simp at hm
  | cons hd tl ih =>
    obtain ⟨k', v'⟩ := hd
    obtain ⟨hni, hnd'⟩ := List.nodup_cons.mp hnd
    rcases List.mem_cons.mp hm with heq | hm'
    · obtain ⟨h1, h2⟩ := Prod.mk.inj heq
      subst h1
      subst h2
      simp [mapLookup]
    · have hk : k' ≠ k := by
        intro hkk
        subst hkk
        exact hni (List.mem_map.mpr ⟨(k', u), hm', rfl⟩)
      simp only [mapLookup, if_neg hk]
      exact ih hnd' hm'

theorem mapLookup_perm {l1 l2 : List (Int × User)} (hp : l1.Perm l2)
    (hnd : (l1.map Prod.fst).Nodup) (k : Int) : mapLookup l1 k = mapLookup l2 k := by
  have hnd2 : (l2.map Prod.fst).Nodup := ((hp.map Prod.fst).nodup_iff).mp hnd
  cases hc : mapLookup l1 k with
  | some u => exact (mapLookup_of_mem_nodup hnd2 (hp.mem_iff.mp (mapLookup_mem hc))).symm
  | none =>
    symm
    rw [mapLookup_eq_none_iff] at hc ⊢
    exact fun q hq => hc q (hp.mem_iff.mpr hq)

/-- C7: for every document a Go map can hold — distinct keys, byte-valued
passwords — marshalling it to the file and unmarshalling the file back
succeeds and yields an identical document: the entries (all five fields, the
byte-sequence password included, under their integer keys) survive as a
permutation, and every key looks up to exactly the record it had before. -/
theorem write_load_roundtrip (d : DBUserStructure) (h : WFDoc d) :
    loadUserDB (writeUserDB d) = some ⟨List.insertionSort keyLE d.Users⟩ ∧
    (List.insertionSort keyLE d.Users).Perm d.Users ∧
    ∀ k, mapLookup (List.insertionSort keyLE d.Users) k = mapLookup d.Users k := by
  have hperm := List.perm_insertionSort keyLE d.Users
  refine ⟨loadUserDB_writeUserDB d h.2, hperm, fun k => ?_⟩
  have hnd : ((List.insertionSort keyLE d.Users).map Prod.fst).Nodup :=
    ((hperm.map Prod.fst).nodup_iff).mpr h.1
  exact mapLookup_perm hperm hnd k

/-- C7 witness: the two-record document round-trips through the file; the key
2 lookup is preserved. -/
theorem write_load_roundtrip_witness :
    loadUserDB (writeUserDB sampleDB2) = some ⟨List.insertionSort keyLE sampleDB2.Users⟩ ∧
    mapLookup (List.insertionSort keyLE sampleDB2.Users) 2 = mapLookup sampleDB2.Users 2 :=
  ⟨(write_load_roundtrip sampleDB2 ⟨by decide, by decide⟩).1,
   (write_load_roundtrip sampleDB2 ⟨by decide, by decide⟩).2.2 2⟩

end Chirpy
